import Mathlib

/-!
Verification of `toproduct/translate_languages.py` (deepin-auto-translation).

The program is shallowly embedded: Python strings are Lean `String`s,
the remote completion endpoint is an oracle `Nat → Option String`
(attempt index ↦ `some content` for a successful call whose first
choice's message content is `content`, `none` for a raised exception),
console/file I/O is abstracted away, and the functions of the source
file become pure Lean functions with the same names.
-/

/-- Python ASCII whitespace characters, as accepted by `str.strip()`. -/
def isPyWs (c : Char) : Bool :=
  c = ' ' || c = '\t' || c = '\n' || c = '\x0b' || c = '\x0c' || c = '\r'

/-- Drop the longest suffix of `l` whose characters all satisfy `p`. -/
def dropEndWhile (p : Char → Bool) (l : List Char) : List Char :=
  (l.reverse.dropWhile p).reverse

/-- `str.strip()` on the character list: remove leading and trailing whitespace. -/
def stripList (l : List Char) : List Char :=
  dropEndWhile isPyWs (l.dropWhile isPyWs)

/-- Embedding of Python `s.strip()`. -/
def pyStrip (s : String) : String :=
  ⟨stripList s.data⟩

/-- Embedding of Python `s.lower()` (ASCII case folding suffices here). -/
def pyLower (s : String) : String :=
  ⟨s.data.map Char.toLower⟩

/-- The double-quote character, first argument of `result.replace('"', '')`. -/
def dquote : Char := Char.ofNat 34

/-- The single-quote character, first argument of the second `replace`. -/
def squote : Char := Char.ofNat 39

/-- Embedding of Python `s.replace(c, '')`: delete every occurrence of `c`. -/
def removeChar (c : Char) (s : String) : String :=
  ⟨s.data.filter (fun d => d ≠ c)⟩

/-- The punctuation set `'.,!?;:，。！？；：'` of `translate_to_language`. -/
def pyPunct : List Char :=
  ['.', ',', '!', '?', ';', ':', '，', '。', '！', '？', '；', '：']

/-- The post-processing `translate_to_language` applies to a successful
completion (`translate_languages.py`, lines 92–94):
`content.strip()`, then `.replace('"','').replace("'","").strip()`,
then drop every character of the fixed punctuation set. -/
def cleanResult (content : String) : String :=
  let r := pyStrip content
  let r := removeChar squote (removeChar dquote r)
  let r := pyStrip r
  ⟨r.data.filter (fun c => !(pyPunct.contains c))⟩

/-- The observable outcome of one call of `translate_to_language`:
the returned value (`none` for Python's implicit `return None`, only
reachable when `max_retries = 0`), the number of network calls issued,
and the list of back-off sleeps, in seconds, in the order performed. -/
structure TranslateOutcome where
  result : Option String
  calls : Nat
  waits : List Nat
deriving DecidableEq, Repr

/-- The retry loop of `translate_to_language` (lines 83–103).
`fuel` is the number of loop iterations still available
(`max_retries - attempt`); `attempt` is the current 0-based index.
On success the cleaned first completion is returned; on failure the
loop sleeps `(attempt + 1) * 2` seconds unless this was the final
attempt, in which case the original text is returned. -/
def translateGo (oracle : Nat → Option String) (text : String) :
    Nat → Nat → Nat → List Nat → TranslateOutcome
  | 0, _, calls, waits => ⟨none, calls, waits⟩
  | fuel + 1, attempt, calls, waits =>
    match oracle attempt with
    | some content => ⟨some (cleanResult content), calls + 1, waits⟩
    | none =>
      if fuel = 0 then
        ⟨some text, calls + 1, waits⟩
      else
        translateGo oracle text fuel (attempt + 1) (calls + 1)
          (waits ++ [(attempt + 1) * 2])

/-- Embedding of `translate_to_language(client, text, ...)` (lines 65–103).
The `client`/language arguments only shape the prompt sent to the remote
service, which the oracle abstracts; `max_retries` defaults to 3 in the
source and is passed explicitly here. -/
def translate_to_language (oracle : Nat → Option String) (text : String)
    (max_retries : Nat) : TranslateOutcome :=
  if text = "" ∨ pyStrip text = "" then ⟨some text, 0, []⟩
  else translateGo oracle text max_retries 0 0 []

/-- The header line that `read_source_file` skips (lines 118 and 134). -/
def headerLine : String := "source language,"

/-- The per-line cleanup of `read_source_file` (lines 121–123):
strip the line, then remove one trailing comma if present. -/
def cleanLine (line : String) : String :=
  let c := pyStrip line
  if c.data.getLast? = some ',' then ⟨c.data.dropLast⟩ else c

/-- The body of the line-processing loop of `read_source_file`: a line whose
stripped, lowercased form equals `source language,` is skipped; otherwise
the cleaned line is kept when non-empty. -/
def keepLine (line : String) : Option String :=
  if pyLower (pyStrip line) = headerLine then none
  else if cleanLine line = "" then none else some (cleanLine line)

/-- The line-processing loop of `read_source_file` (lines 116–126, repeated
verbatim at lines 133–140 for the GBK branch). -/
def processLines (lines : List String) : List String :=
  lines.filterMap keepLine

/-- Embedding of `read_source_file` (lines 105–149). Reading and decoding
the file are abstracted: `utf8Lines` is `some lines` when the UTF-8 read
of the file succeeds with those raw lines, and `none` when it raises
`UnicodeDecodeError`; `gbkLines` is the GBK read performed only in the
fallback branch. The trailing `if not languages: return []` of the
source is kept even though it is the identity on the empty list. -/
def read_source_file (utf8Lines : Option (List String))
    (gbkLines : List String) : List String :=
  let languages :=
    match utf8Lines with
    | some lines => processLines lines
    | none => processLines gbkLines
  if languages = [] then [] else languages

/-- Lookup in a Python dict modelled as an association list
(first binding wins, as repeated-key literals cannot arise here). -/
def lookupA (m : List (String × String)) (k : String) : Option String :=
  (m.find? (fun p => p.1 = k)).map (fun p => p.2)

/-- Modelled from the spec: `REVERSE_LANGUAGE_CODES` is defined in
`language_codes.py`, which is not part of the sources; per the spec it
is the inverse of the static code→name map `LANGUAGE_CODES`. -/
def reverseMap (m : List (String × String)) : List (String × String) :=
  m.map (fun p => (p.2, p.1))

/-- One iteration of the selector loops (lines 40–44 and 58–62): the
stripped input is looked up as a code in `LANGUAGE_CODES`, then as a
display name in `REVERSE_LANGUAGE_CODES`; `none` means the loop prints
an error and prompts again. -/
def resolveLanguage (codes : List (String × String)) (raw : String) :
    Option (String × String) :=
  let s := pyStrip raw
  match lookupA codes s with
  | some name => some (s, name)
  | none =>
    match lookupA (reverseMap codes) s with
    | some code => some (code, s)
    | none => none

/-- Embedding of the `while True` loop of `get_target_language`
(lines 29–45), run against the finite prefix `inputs` of the interactive
input stream: it returns the resolution of the first resolvable input,
and `none` when every supplied input was rejected — in the program the
loop would then still be prompting, having consumed all of `inputs`. -/
def get_target_language (codes : List (String × String)) :
    List String → Option (String × String)
  | [] => none
  | i :: rest =>
    match resolveLanguage codes i with
    | some p => some p
    | none => get_target_language codes rest

/-- Embedding of `get_source_language` (lines 47–63); its loop body is
identical to that of `get_target_language`. -/
def get_source_language (codes : List (String × String)) :
    List String → Option (String × String)
  | [] => none
  | i :: rest =>
    match resolveLanguage codes i with
    | some p => some p
    | none => get_source_language codes rest

/-- The code→name pairs printed by `show_common_languages` (lines 19–23);
used as a concrete instance of the language map. -/
def commonLangs : List (String × String) :=
  [("zh", "中文"), ("en", "英文"), ("ja", "日语"),
   ("ko", "韩语"), ("fr", "法语"), ("de", "德语"),
   ("es", "西班牙语"), ("ru", "俄语"), ("ar", "阿拉伯语")]

/-- A field as written by `csv.writer` with the default dialect:
quoted (with embedded quote characters doubled) exactly when it
contains the delimiter, the quote character, or a line-break character. -/
def csvField (s : String) : String :=
  if s.data.any (fun c => c = ',' || c = dquote || c = '\r' || c = '\n') then
    ⟨dquote :: (s.data.foldr
      (fun c acc => if c = dquote then dquote :: dquote :: acc else c :: acc)
      [dquote])⟩
  else s

/-- A row as written by `csv.writer.writerow`: fields joined by the
delimiter, terminated by the default `\r\n` line terminator (the file is
opened with `newline=''`, so no further translation happens). -/
def csvRow (fields : List String) : String :=
  String.intercalate "," (fields.map csvField) ++ "\r\n"

/-- Embedding of `write_translated_file` (lines 151–159), returning the
text written to the UTF-8 output file: a header row, then one row per
`zip`-pair of original and translated text. -/
def write_translated_file (original_languages translated_languages : List String)
    (source_language : String) : String :=
  csvRow ["Original Text", "Source Language", "Translated Text"] ++
    String.join ((original_languages.zip translated_languages).map
      fun p => csvRow [p.1, source_language, p.2])

/-- The translation loop of `main` (lines 186–195): the record at 0-based
position `i` of the source list is translated with the attempt oracle
`oracles i`, and results are appended in order (`n` is the position of
the first record of the remaining list; `main` starts at 0). The progress
prints and the rate-limiting sleep do not affect the produced sequence. -/
def mainLoop (oracles : Nat → Nat → Option String) :
    Nat → List String → List (Option String)
  | _, [] => []
  | n, t :: rest =>
    (translate_to_language (oracles n) t 3).result :: mainLoop oracles (n + 1) rest

/-- The quote characters the spec's phrase "enclosing quote characters"
can refer to. -/
def isQuoteChar (c : Char) : Bool := c = dquote || c = squote

/-- Modelled from the spec: "strip any enclosing quote characters" —
if the (already trimmed) completion starts and ends with a quote
character, remove that enclosing pair; interior quotes stay. -/
def stripEnclosingQuotes (s : String) : String :=
  match s.data with
  | [] => s
  | c :: rest =>
    match rest.getLast? with
    | none => s
    | some d => if isQuoteChar c && isQuoteChar d then ⟨rest.dropLast⟩ else s

/-- Modelled from the spec: the cleaning of a successful completion as the
spec words it — "trim surrounding whitespace, strip any enclosing quote
characters, and remove a fixed set of East-Asian and Western
sentence-level punctuation marks". Stated for comparison with
`cleanResult`, which embeds what the code does. -/
def specClean (content : String) : String :=
  let r := stripEnclosingQuotes (pyStrip content)
  ⟨r.data.filter (fun c => !(pyPunct.contains c))⟩

/-! Stepping lemmas for the retry loop. -/

theorem translateGo_success (oracle : Nat → Option String) (text : String)
    (fuel attempt calls : Nat) (waits : List Nat) (c : String)
    (h : oracle attempt = some c) :
    translateGo oracle text (fuel + 1) attempt calls waits =
      ⟨some (cleanResult c), calls + 1, waits⟩ := by
  simp [translateGo, h]

theorem translateGo_fail_last (oracle : Nat → Option String) (text : String)
    (attempt calls : Nat) (waits : List Nat) (h : oracle attempt = none) :
    translateGo oracle text (0 + 1) attempt calls waits =
      ⟨some text, calls + 1, waits⟩ := by
  simp [translateGo, h]

theorem translateGo_fail_step (oracle : Nat → Option String) (text : String)
    (fuel attempt calls : Nat) (waits : List Nat)
    (h : oracle attempt = none) (hf : fuel ≠ 0) :
    translateGo oracle text (fuel + 1) attempt calls waits =
      translateGo oracle text fuel (attempt + 1) (calls + 1)
        (waits ++ [(attempt + 1) * 2]) := by
  simp [translateGo, h, hf]

/-- C1: if the input text is non-empty and not whitespace-only and every
call attempt raises, `translate_to_language` makes exactly 3 attempts,
sleeps 2 seconds after the first failure and 4 after the second, and
returns the original text (it returns normally — no exception escapes). -/
theorem C1_retry_exhaustion (oracle : Nat → Option String) (text : String)
    (hfail : ∀ i, oracle i = none)
    (hne : ¬(text = "" ∨ pyStrip text = "")) :
    translate_to_language oracle text 3 = ⟨some text, 3, [2, 4]⟩ := by
  rw [translate_to_language, if_neg hne]
  rw [show (3 : Nat) = 2 + 1 from rfl,
    translateGo_fail_step oracle text 2 0 0 [] (hfail 0) (by omega)]
  rw [show (2 : Nat) = 1 + 1 from rfl,
    translateGo_fail_step oracle text 1 1 1 ([] ++ [(0 + 1) * 2]) (hfail 1)
      (by omega)]
  rw [translateGo_fail_last oracle text 2 2
    (([] ++ [(0 + 1) * 2]) ++ [(1 + 1) * 2]) (hfail 2)]
  rfl

theorem C1_retry_exhaustion_witness :
    (¬(("hello" : String) = "" ∨ pyStrip "hello" = "")) ∧
    translate_to_language (fun _ => none) "hello" 3 = ⟨some "hello", 3, [2, 4]⟩ :=
  ⟨by decide,
    C1_retry_exhaustion (fun _ => none) "hello" (fun _ => rfl) (by decide)⟩

/-- C2: empty or whitespace-only text is returned unchanged with zero
network calls (the remote client is never invoked). -/
theorem C2_whitespace_shortcut (oracle : Nat → Option String) (text : String)
    (h : text = "" ∨ pyStrip text = "") :
    translate_to_language oracle text 3 = ⟨some text, 0, []⟩ := by
  rw [translate_to_language, if_pos h]

theorem C2_whitespace_shortcut_witness :
    ((" \t " : String) = "" ∨ pyStrip " \t " = "") ∧
    translate_to_language (fun _ => some "junk") " \t " 3 = ⟨some " \t ", 0, []⟩ :=
  ⟨by decide, C2_whitespace_shortcut (fun _ => some "junk") " \t " (by decide)⟩

/-- C3 fails as stated: the code removes every double- and single-quote
character from the completion, not only an enclosing pair. With the first
attempt succeeding with completion `it "works" now`, the code returns
`it works now`, while the spec's transformation (trim, strip enclosing
quotes, remove the fixed punctuation set) keeps the interior quotes. -/
theorem C3_counterexample :
    (translate_to_language (fun _ => some "it \"works\" now") "hello" 3).result
        = some "it works now" ∧
    specClean "it \"works\" now" = "it \"works\" now" ∧
    (translate_to_language (fun _ => some "it \"works\" now") "hello" 3).result
        ≠ some (specClean "it \"works\" now") := by
  exact ⟨by decide, by decide, by decide⟩

/-- C3 (amended): when the first attempt succeeds, the client returns the
first completion transformed by `cleanResult` — trim, remove every
double- and single-quote character, trim again, and drop the fixed
punctuation set — with exactly one call and no back-off sleep. -/
theorem C3_first_attempt_success (oracle : Nat → Option String)
    (text content : String) (hne : ¬(text = "" ∨ pyStrip text = ""))
    (h0 : oracle 0 = some content) :
    translate_to_language oracle text 3 =
      ⟨some (cleanResult content), 1, []⟩ := by
  rw [translate_to_language, if_neg hne]
  rw [show (3 : Nat) = 2 + 1 from rfl,
    translateGo_success oracle text 2 0 0 [] content h0]

theorem C3_first_attempt_success_witness :
    (¬(("hi" : String) = "" ∨ pyStrip "hi" = "")) ∧
    translate_to_language (fun _ => some " \"Bonjour!\" ") "hi" 3 =
      ⟨some "Bonjour", 1, []⟩ :=
  ⟨by decide,
    by
      have h := C3_first_attempt_success (fun _ => some " \"Bonjour!\" ") "hi"
        " \"Bonjour!\" " (by decide) rfl
      rw [h]; decide⟩


theorem if_nil_id (l : List String) : (if l = [] then [] else l) = l := by
  split
  · simp_all
  · rfl

/-- C4: a file made of a header line followed by three content lines —
one with a trailing comma, one blank after trimming, one normal — is read
as exactly the two cleaned non-empty lines, in their original order. -/
theorem C4_reader_shape (h l1 l2 l3 : String)
    (hh : pyLower (pyStrip h) = headerLine)
    (h1 : pyLower (pyStrip l1) ≠ headerLine)
    (h3 : pyLower (pyStrip l3) ≠ headerLine)
    (hc1 : (pyStrip l1).data.getLast? = some ',')
    (hne1 : cleanLine l1 ≠ "")
    (hw2 : pyStrip l2 = "")
    (hne3 : cleanLine l3 ≠ "") :
    processLines [h, l1, l2, l3] = [cleanLine l1, cleanLine l3] ∧
    (processLines [h, l1, l2, l3]).length = 2 := by
  have h2 : pyLower (pyStrip l2) ≠ headerLine := by
    rw [hw2]; decide
  have hcl2 : cleanLine l2 = "" := by
    rw [cleanLine, hw2]; rfl
  have hmain : processLines [h, l1, l2, l3] = [cleanLine l1, cleanLine l3] := by
    simp [processLines, keepLine, hh, h1, h2, h3, hcl2, hne1, hne3]
  exact ⟨hmain, by rw [hmain]; rfl⟩

theorem C4_reader_shape_witness :
    processLines ["Source Language,", " hello, ", "  ", "world"] =
      ["hello", "world"] := by
  have h := C4_reader_shape "Source Language," " hello, " "  " "world"
    (by decide) (by decide) (by decide) (by decide) (by decide) (by decide)
    (by decide)
  rw [h.1]; decide

/-- C5: `read_source_file` uses the lines obtained by the first (UTF-8)
read when it succeeds; exactly when that decode fails it uses the lines
of the second (GBK) read, applying the same `processLines` cleanup in
both cases, so the result has the same shape either way. -/
theorem C5_encoding_fallback (utf8Lines : Option (List String))
    (gbkLines : List String) :
    (∀ lines, utf8Lines = some lines →
      read_source_file utf8Lines gbkLines = processLines lines) ∧
    (utf8Lines = none →
      read_source_file utf8Lines gbkLines = processLines gbkLines) := by
  constructor
  · intro lines hl
    rw [hl, read_source_file]
    exact if_nil_id _
  · intro hl
    rw [hl, read_source_file]
    exact if_nil_id _

theorem C5_encoding_fallback_witness :
    read_source_file (some ["x,", "  "]) ["gbk stuff"] =
      processLines ["x,", "  "] ∧
    read_source_file none ["a,"] = processLines ["a,"] ∧
    processLines ["x,", "  "] = ["x"] ∧ processLines ["a,"] = ["a"] :=
  ⟨(C5_encoding_fallback (some ["x,", "  "]) ["gbk stuff"]).1 _ rfl,
    (C5_encoding_fallback none ["a,"]).2 rfl, by decide, by decide⟩

theorem get_target_language_all_rejected (codes : List (String × String))
    (inputs : List String)
    (hall : ∀ i ∈ inputs, resolveLanguage codes i = none) :
    get_target_language codes inputs = none := by
  induction inputs with
  | nil => rfl
  | cons a rest ih =>
    rw [get_target_language, hall a (by simp)]
    exact ih fun i hi => hall i (by simp [hi])

theorem get_source_language_all_rejected (codes : List (String × String))
    (inputs : List String)
    (hall : ∀ i ∈ inputs, resolveLanguage codes i = none) :
    get_source_language codes inputs = none := by
  induction inputs with
  | nil => rfl
  | cons a rest ih =>
    rw [get_source_language, hall a (by simp)]
    exact ih fun i hi => hall i (by simp [hi])

/-- C6: both selector loops resolve a user string against the code→name
map and its inverse — a known code returns `(code, name)` at once, a
known display name returns `(code, name)` at once, and a stream of
rejected inputs is consumed entirely without the loop returning (the
model returns `none` after prompting once per rejected input; no
exception is possible, the functions being total). -/
theorem C6_selector_resolution (codes : List (String × String))
    (inputs : List String) (s name code : String) :
    (lookupA codes (pyStrip s) = some name →
      get_target_language codes (s :: inputs) = some (pyStrip s, name) ∧
      get_source_language codes (s :: inputs) = some (pyStrip s, name)) ∧
    (lookupA codes (pyStrip s) = none →
      lookupA (reverseMap codes) (pyStrip s) = some code →
      get_target_language codes (s :: inputs) = some (code, pyStrip s) ∧
      get_source_language codes (s :: inputs) = some (code, pyStrip s)) ∧
    ((∀ i ∈ inputs, resolveLanguage codes i = none) →
      get_target_language codes inputs = none ∧
      get_source_language codes inputs = none) := by
  refine ⟨fun hc => ?_, fun hc hr => ?_, fun hall =>
    ⟨get_target_language_all_rejected codes inputs hall,
      get_source_language_all_rejected codes inputs hall⟩⟩
  · rw [get_target_language, get_source_language, resolveLanguage]
    simp [hc]
  · rw [get_target_language, get_source_language, resolveLanguage]
    simp [hc, hr]

theorem C6_selector_resolution_witness :
    get_target_language commonLangs ["ja"] = some ("ja", "日语") ∧
    get_target_language commonLangs [" 英文 "] = some ("en", "英文") ∧
    get_source_language commonLangs ["bogus", "??"] = none := by
  refine ⟨?_, ?_, ?_⟩
  · exact ((C6_selector_resolution commonLangs [] "ja" "日语" "x").1
      (by decide)).1
  · exact ((C6_selector_resolution commonLangs [] " 英文 " "x" "en").2.1
      (by decide) (by decide)).1
  · exact ((C6_selector_resolution commonLangs ["bogus", "??"] "s" "n"
      "c").2.2 (by decide)).2

/-- C8: for equal-length inputs, the writer emits the header row
`Original Text,Source Language,Translated Text` and then exactly one
comma-delimited row `(original, sourceLanguageName, translated)` per
pair; on `["hello","world"]` / `["你好","世界"]` / `"英文"` the data
rows are `hello,英文,你好` and `world,英文,世界`. -/
theorem C8_writer_rows (orig trans : List String) (src : String)
    (h : orig.length = trans.length) :
    write_translated_file orig trans src =
      "Original Text,Source Language,Translated Text\r\n" ++
        String.join ((orig.zip trans).map fun p => csvRow [p.1, src, p.2]) ∧
    ((orig.zip trans).map fun p => csvRow [p.1, src, p.2]).length =
      orig.length ∧
    write_translated_file ["hello", "world"] ["你好", "世界"] "英文" =
      "Original Text,Source Language,Translated Text\r\n" ++
        "hello,英文,你好\r\n" ++ "world,英文,世界\r\n" := by
  refine ⟨?_, ?_, by decide⟩
  · rw [write_translated_file]
    congr 1
  · simp [List.length_zip, h]

theorem C8_writer_rows_witness :
    (["hello", "world"] : List String).length =
      (["你好", "世界"] : List String).length ∧
    write_translated_file ["hello", "world"] ["你好", "世界"] "英文" =
      "Original Text,Source Language,Translated Text\r\n" ++
        "hello,英文,你好\r\n" ++ "world,英文,世界\r\n" :=
  ⟨rfl, (C8_writer_rows ["hello", "world"] ["你好", "世界"] "英文" rfl).2.2⟩

/-- C9: for inputs of any lengths, the writer still returns a result —
the header followed by exactly `min` as many data rows as the shorter
sequence, the excess of the longer one being dropped by `zip`; the
concrete instance drops the second original. -/
theorem C9_zip_truncation (orig trans : List String) (src : String) :
    write_translated_file orig trans src =
      "Original Text,Source Language,Translated Text\r\n" ++
        String.join ((orig.zip trans).map fun p => csvRow [p.1, src, p.2]) ∧
    ((orig.zip trans).map fun p => csvRow [p.1, src, p.2]).length =
      min orig.length trans.length ∧
    write_translated_file ["a", "b"] ["x"] "L" =
      "Original Text,Source Language,Translated Text\r\n" ++ "a,L,x\r\n" := by
  refine ⟨?_, by simp [List.length_zip], by decide⟩
  rw [write_translated_file]
  congr 1

/-- C10 fails as stated: the exact string `source language,` can appear
in the returned sequence — the input line `source language,,` is not
skipped (its lowercased strip is `source language,,`), and dropping its
one trailing comma yields exactly `source language,`. -/
theorem C10_counterexample :
    processLines ["source language,,"] = ["source language,"] ∧
    "source language," ∈ processLines ["source language,,"] := by
  refine ⟨by decide, ?_⟩
  rw [show processLines ["source language,,"] = ["source language,"] from
    by decide]
  decide

/-- C10 (amended): every line whose stripped, lowercased form equals
`source language,` is dropped wherever it occurs in the file — in
particular an input line with exactly that text never survives — but the
string `source language,` can still appear in the output, cleaned from a
different line such as `source language,,`. -/
theorem C10_header_dropped_anywhere (pre post : List String) (line : String)
    (hline : pyLower (pyStrip line) = headerLine) :
    processLines (pre ++ line :: post) = processLines (pre ++ post) := by
  simp [processLines, List.filterMap_append, List.filterMap_cons, keepLine,
    hline]

theorem C10_header_dropped_anywhere_witness :
    pyLower (pyStrip " SOURCE LANGUAGE, ") = headerLine ∧
    processLines ["a", " SOURCE LANGUAGE, ", "b"] = processLines ["a", "b"] :=
  ⟨by decide,
    C10_header_dropped_anywhere ["a"] ["b"] " SOURCE LANGUAGE, " (by decide)⟩

/-! Facts about `stripList` needed for the orchestration invariants:
the cleaned lines kept by `processLines` are neither empty nor
whitespace-only, so the translation loop never takes the shortcut for
blank text. -/

theorem hd_dropWhile (p : Char → Bool) (l : List Char) (c : Char)
    (h : (l.dropWhile p).head? = some c) : p c = false := by
  induction l with
  | nil => simp at h
  | cons a l ih =>
    rw [List.dropWhile_cons] at h
    by_cases hp : p a
    · rw [if_pos hp] at h; exact ih h
    · rw [if_neg hp] at h
      simp only [List.head?_cons, Option.some.injEq] at h
      subst h
      exact Bool.eq_false_iff.mpr hp

theorem dropWhile_suffix_ex (p : Char → Bool) (l : List Char) :
    ∃ t, l = t ++ l.dropWhile p := by
  induction l with
  | nil => exact ⟨[], rfl⟩
  | cons a l ih =>
    rw [List.dropWhile_cons]
    by_cases hp : p a
    · obtain ⟨t, ht⟩ := ih
      rw [if_pos hp]
      exact ⟨a :: t, by rw [List.cons_append, ← ht]⟩
    · rw [if_neg hp]
      exact ⟨[], rfl⟩

theorem dropWhile_eq_self_of_head (p : Char → Bool) (l : List Char)
    (h : ∀ c, l.head? = some c → p c = false) : l.dropWhile p = l := by
  cases l with
  | nil => rfl
  | cons a l =>
    rw [List.dropWhile_cons]
    simp [h a rfl]

theorem head?_dropEndWhile (p : Char → Bool) (m : List Char) (c : Char)
    (h : (dropEndWhile p m).head? = some c) : m.head? = some c := by
  obtain ⟨t, ht⟩ := dropWhile_suffix_ex p m.reverse
  have hm : m = dropEndWhile p m ++ t.reverse := by
    have h2 := congrArg List.reverse ht
    simpa [dropEndWhile, List.reverse_append] using h2
  cases e : dropEndWhile p m with
  | nil => rw [e] at h; simp at h
  | cons a tl =>
    rw [e] at h hm
    simp only [List.head?_cons, Option.some.injEq] at h
    rw [hm, List.cons_append, List.head?_cons, h]

theorem stripList_head_not_ws (l : List Char) (c : Char)
    (h : (stripList l).head? = some c) : isPyWs c = false :=
  hd_dropWhile isPyWs l c (head?_dropEndWhile isPyWs (l.dropWhile isPyWs) c h)

theorem stripList_ne_nil_of_head (l : List Char) (c : Char)
    (hc : l.head? = some c) (hw : isPyWs c = false) : stripList l ≠ [] := by
  have hdw : l.dropWhile isPyWs = l := by
    apply dropWhile_eq_self_of_head
    intro d hd
    rw [hc] at hd
    injection hd with hd
    rw [← hd]; exact hw
  rw [stripList, hdw, dropEndWhile]
  intro hnil
  rw [List.reverse_eq_nil_iff, List.dropWhile_eq_nil_iff] at hnil
  have hcl : c ∈ l := by
    cases l with
    | nil => simp at hc
    | cons a t =>
      simp only [List.head?_cons, Option.some.injEq] at hc
      rw [← hc]; exact List.mem_cons_self a t
  have := hnil c (List.mem_reverse.mpr hcl)
  rw [hw] at this
  exact absurd this (by simp)

theorem stripList_idem (l : List Char) :
    stripList (stripList l) = stripList l := by
  have h1 : (stripList l).dropWhile isPyWs = stripList l :=
    dropWhile_eq_self_of_head _ _ (fun c hc => stripList_head_not_ws l c hc)
  have hrev : (stripList l).reverse =
      (l.dropWhile isPyWs).reverse.dropWhile isPyWs := by
    simp [stripList, dropEndWhile]
  have h2 : (stripList l).reverse.dropWhile isPyWs = (stripList l).reverse := by
    apply dropWhile_eq_self_of_head
    intro c hc
    rw [hrev] at hc
    exact hd_dropWhile _ _ _ hc
  rw [stripList, h1, dropEndWhile, h2, List.reverse_reverse]

theorem pyStrip_idem (s : String) : pyStrip (pyStrip s) = pyStrip s := by
  show (⟨stripList (pyStrip s).data⟩ : String) = pyStrip s
  have h : (pyStrip s).data = stripList s.data := rfl
  rw [h, stripList_idem]
  rfl

theorem head?_dropLast_of_ne_nil (l : List Char) (h : l.dropLast ≠ []) :
    l.dropLast.head? = l.head? := by
  match l with
  | [] => simp at h
  | [a] => simp at h
  | a :: b :: t => rfl

/-- Every line kept by `processLines` is non-empty and not
whitespace-only: the per-line strip removes surrounding whitespace, and
removing one trailing comma cannot expose a whitespace-only remainder. -/
theorem processLines_mem (lines : List String) (r : String)
    (hr : r ∈ processLines lines) : r ≠ "" ∧ pyStrip r ≠ "" := by
  rw [processLines, List.mem_filterMap] at hr
  obtain ⟨line, _, hf⟩ := hr
  rw [keepLine] at hf
  by_cases hh : pyLower (pyStrip line) = headerLine
  · rw [if_pos hh] at hf; exact absurd hf (by simp)
  rw [if_neg hh] at hf
  by_cases he : cleanLine line = ""
  · rw [if_pos he] at hf; exact absurd hf (by simp)
  rw [if_neg he] at hf
  have hr2 : r = cleanLine line := by injection hf with h; exact h.symm
  subst hr2
  refine ⟨he, ?_⟩
  rw [cleanLine] at he ⊢
  by_cases hc : (pyStrip line).data.getLast? = some ','
  · rw [if_pos hc] at he ⊢
    have hdner : (pyStrip line).data.dropLast ≠ [] := by
      intro hnil
      exact he (by rw [hnil])
    cases hd : (pyStrip line).data.dropLast.head? with
    | none =>
      rw [List.head?_eq_none_iff] at hd
      exact absurd hd hdner
    | some c =>
      have hdp : (pyStrip line).data.head? = some c := by
        rw [← head?_dropLast_of_ne_nil _ hdner]; exact hd
      have hnw : isPyWs c = false := stripList_head_not_ws line.data c hdp
      intro hcon
      have hnil : stripList ((pyStrip line).data.dropLast) = [] :=
        congrArg String.data hcon
      exact stripList_ne_nil_of_head _ c hd hnw hnil
  · rw [if_neg hc] at he ⊢
    rw [pyStrip_idem]
    exact he

/-! Outcome of a 3-attempt call for each pattern of oracle answers. -/

theorem translate3_s0 (oracle : Nat → Option String) (text c : String)
    (hne : ¬(text = "" ∨ pyStrip text = "")) (h0 : oracle 0 = some c) :
    translate_to_language oracle text 3 = ⟨some (cleanResult c), 1, []⟩ := by
  rw [translate_to_language, if_neg hne]
  show translateGo oracle text (2 + 1) 0 0 [] = _
  rw [translateGo_success oracle text 2 0 0 [] c h0]

theorem translate3_s1 (oracle : Nat → Option String) (text c : String)
    (hne : ¬(text = "" ∨ pyStrip text = ""))
    (h0 : oracle 0 = none) (h1 : oracle 1 = some c) :
    translate_to_language oracle text 3 = ⟨some (cleanResult c), 2, [2]⟩ := by
  rw [translate_to_language, if_neg hne]
  show translateGo oracle text (2 + 1) 0 0 [] = _
  rw [translateGo_fail_step oracle text 2 0 0 [] h0 (by omega)]
  show translateGo oracle text (1 + 1) 1 1 [2] = _
  rw [translateGo_success oracle text 1 1 1 [2] c h1]

theorem translate3_s2 (oracle : Nat → Option String) (text c : String)
    (hne : ¬(text = "" ∨ pyStrip text = ""))
    (h0 : oracle 0 = none) (h1 : oracle 1 = none) (h2 : oracle 2 = some c) :
    translate_to_language oracle text 3 = ⟨some (cleanResult c), 3, [2, 4]⟩ := by
  rw [translate_to_language, if_neg hne]
  show translateGo oracle text (2 + 1) 0 0 [] = _
  rw [translateGo_fail_step oracle text 2 0 0 [] h0 (by omega)]
  show translateGo oracle text (1 + 1) 1 1 [2] = _
  rw [translateGo_fail_step oracle text 1 1 1 [2] h1 (by omega)]
  show translateGo oracle text (0 + 1) 2 2 [2, 4] = _
  rw [translateGo_success oracle text 0 2 2 [2, 4] c h2]

theorem translate3_fail (oracle : Nat → Option String) (text : String)
    (hne : ¬(text = "" ∨ pyStrip text = ""))
    (h0 : oracle 0 = none) (h1 : oracle 1 = none) (h2 : oracle 2 = none) :
    translate_to_language oracle text 3 = ⟨some text, 3, [2, 4]⟩ := by
  rw [translate_to_language, if_neg hne]
  show translateGo oracle text (2 + 1) 0 0 [] = _
  rw [translateGo_fail_step oracle text 2 0 0 [] h0 (by omega)]
  show translateGo oracle text (1 + 1) 1 1 [2] = _
  rw [translateGo_fail_step oracle text 1 1 1 [2] h1 (by omega)]
  show translateGo oracle text (0 + 1) 2 2 [2, 4] = _
  rw [translateGo_fail_last oracle text 2 2 [2, 4] h2]

/-- When a 3-attempt call returns the original (non-blank) text, either
every attempt failed, or the first successful attempt's cleaned
completion is the original text itself. -/
theorem translate_echo_cases (oracle : Nat → Option String) (text : String)
    (hne : ¬(text = "" ∨ pyStrip text = ""))
    (h : (translate_to_language oracle text 3).result = some text) :
    (oracle 0 = none ∧ oracle 1 = none ∧ oracle 2 = none) ∨
    (∃ k content, k < 3 ∧ oracle k = some content ∧
      (∀ j, j < k → oracle j = none) ∧ cleanResult content = text) := by
  cases h0 : oracle 0 with
  | some c =>
    rw [translate3_s0 oracle text c hne h0] at h
    simp only [Option.some.injEq] at h
    exact Or.inr ⟨0, c, by omega, h0, fun j hj => absurd hj (by omega), h⟩
  | none =>
    cases h1 : oracle 1 with
    | some c =>
      rw [translate3_s1 oracle text c hne h0 h1] at h
      simp only [Option.some.injEq] at h
      refine Or.inr ⟨1, c, by omega, h1, fun j hj => ?_, h⟩
      have hj0 : j = 0 := by omega
      rw [hj0]; exact h0
    | none =>
      cases h2 : oracle 2 with
      | some c =>
        rw [translate3_s2 oracle text c hne h0 h1 h2] at h
        simp only [Option.some.injEq] at h
        refine Or.inr ⟨2, c, by omega, h2, fun j hj => ?_, h⟩
        match j, hj with
        | 0, _ => exact h0
        | 1, _ => exact h1
      | none => exact Or.inl ⟨rfl, rfl, rfl⟩

theorem mainLoop_length (oracles : Nat → Nat → Option String) (n : Nat)
    (records : List String) :
    (mainLoop oracles n records).length = records.length := by
  induction records generalizing n with
  | nil => rfl
  | cons a rest ih => simp [mainLoop, ih]

theorem mainLoop_getElem? (oracles : Nat → Nat → Option String) (n : Nat)
    (records : List String) (i : Nat) :
    (mainLoop oracles n records)[i]? =
      (records[i]?).map
        fun t => (translate_to_language (oracles (n + i)) t 3).result := by
  induction records generalizing n i with
  | nil => simp [mainLoop]
  | cons a rest ih =>
    cases i with
    | zero => simp [mainLoop]
    | succ j =>
      rw [mainLoop]
      simp only [List.getElem?_cons_succ]
      rw [ih (n + 1) j]
      have harith : n + 1 + j = n + (j + 1) := by omega
      rw [harith]

/-- C7: over a run on the records produced by the Source Reader, the
translation loop yields exactly one result per record, positionally (the
result at index `i` is the translation of the record at index `i`, and
the lengths agree); and a result equal to its original implies either
that all 3 attempts for that record failed or that its first successful
attempt's cleaned completion — the model echoing text it judged already
in the target language — equals the original. -/
theorem C7_run_invariants (oracles : Nat → Nat → Option String)
    (rawLines records : List String) (hrec : records = processLines rawLines) :
    (mainLoop oracles 0 records).length = records.length ∧
    (∀ i : Nat, (mainLoop oracles 0 records)[i]? =
      (records[i]?).map
        fun t => (translate_to_language (oracles i) t 3).result) ∧
    (∀ i t, records[i]? = some t →
      (mainLoop oracles 0 records)[i]? = some (some t) →
      (oracles i 0 = none ∧ oracles i 1 = none ∧ oracles i 2 = none) ∨
      (∃ k content, k < 3 ∧ oracles i k = some content ∧
        (∀ j, j < k → oracles i j = none) ∧ cleanResult content = t)) := by
  have hget : ∀ i : Nat, (mainLoop oracles 0 records)[i]? =
      (records[i]?).map
        fun t => (translate_to_language (oracles i) t 3).result := by
    intro i
    have h := mainLoop_getElem? oracles 0 records i
    rwa [Nat.zero_add] at h
  refine ⟨mainLoop_length oracles 0 records, hget, ?_⟩
  intro i t ht hm
  rw [hget i, ht] at hm
  simp only [Option.map_some', Option.some.injEq] at hm
  have hmem : t ∈ records := List.getElem?_mem ht
  rw [hrec] at hmem
  have hnw := processLines_mem rawLines t hmem
  have hne : ¬(t = "" ∨ pyStrip t = "") := by
    rintro (h | h)
    · exact hnw.1 h
    · exact hnw.2 h
  exact translate_echo_cases (oracles i) t hne hm

theorem C7_run_invariants_witness :
    processLines ["hello,"] = ["hello"] ∧
    (mainLoop (fun _ _ => none) 0 (processLines ["hello,"]))[0]? =
      ((processLines ["hello,"])[0]?).map
        (fun t =>
          (translate_to_language ((fun _ _ => none) 0) t 3).result) ∧
    (mainLoop (fun _ _ => none) 0 (processLines ["hello,"]))[0]? =
      some (some "hello") :=
  ⟨by decide,
    (C7_run_invariants (fun _ _ => none) ["hello,"] (processLines ["hello,"])
      rfl).2.1 0,
    by decide⟩
